import Mathlib

/-!
# Verification of the network-capture pipeline of `main.py`

This file shallowly embeds the capture/correlate/select/assemble pipeline of
the `/extract` endpoint (`extract_headers_cookies` in `src/main.py`):

* the capture store `captured` (a Python dict from request URL to a list of
  request/response entry dicts, with a reserved `"__errors__"` bucket),
* the event listeners `on_request` (lines 54-97) and `on_response`
  (lines 100-124),
* the inline post-data policy of `on_request` (lines 66-80),
* the cookie-header assembly (lines 143-147),
* the three-tier target-selection loops (lines 149-182),
* `normalize_entry` (lines 185-201) and the URL summary (lines 205-219).

Python `str` values that only ever get compared are modelled by `String`;
strings the proofs take apart character by character (cookie headers, post
bodies) are modelled by `List Char`.  Python `bytes` is `List Nat` with an
explicit `< 256` bound where it matters.  Python dicts are insertion-ordered
association lists whose operations act on the first matching key, exactly as
a dict with unique keys behaves.
-/

namespace NetworkScraper

/-- Does `l` start with `p`?  Models Python `s.startswith(p)`, used to build
the substring test. -/
def listStartsWith : List Char → List Char → Bool
  | _, [] => true
  | [], _ :: _ => false
  | c :: cs, n :: ns => c == n && listStartsWith cs ns

/-- Python's substring test `needle in hay` on strings (character lists). -/
def containsSub : List Char → List Char → Bool
  | [], needle => needle.isEmpty
  | c :: rest, needle => listStartsWith (c :: rest) needle || containsSub rest needle

/-- Python's substring test `needle in hay` on `String`. -/
def strContains (hay needle : String) : Bool :=
  containsSub hay.data needle.data

/-! ## base64 (`base64.b64encode` / `base64.b64decode`) -/

/-- The standard base64 alphabet. -/
def b64Alphabet : List Char :=
  "ABCDEFGHIJKLMNOPQRSTUVWXYZabcdefghijklmnopqrstuvwxyz0123456789+/".data

/-- Character for a 6-bit group. -/
def b64Char (n : Nat) : Char := b64Alphabet.getD n 'A'

/-- Index of a base64 character in the alphabet. -/
def b64Index (c : Char) : Nat := b64Alphabet.indexOf c

/-- Model of `base64.b64encode`, producing the padded character sequence. -/
def b64encode : List Nat → List Char
  | b1 :: b2 :: b3 :: rest =>
    b64Char (b1 / 4) :: b64Char (b1 % 4 * 16 + b2 / 16) ::
      b64Char (b2 % 16 * 4 + b3 / 64) :: b64Char (b3 % 64) :: b64encode rest
  | [b1, b2] => [b64Char (b1 / 4), b64Char (b1 % 4 * 16 + b2 / 16), b64Char (b2 % 16 * 4), '=']
  | [b1] => [b64Char (b1 / 4), b64Char (b1 % 4 * 16), '=', '=']
  | [] => []

/-- Recombine 6-bit groups into bytes (the core of `base64.b64decode`). -/
def b64decodeSix : List Nat → List Nat
  | s1 :: s2 :: s3 :: s4 :: rest =>
    (s1 * 4 + s2 / 16) :: (s2 % 16 * 16 + s3 / 4) :: (s3 % 4 * 64 + s4) :: b64decodeSix rest
  | [s1, s2] => [s1 * 4 + s2 / 16]
  | [s1, s2, s3] => [s1 * 4 + s2 / 16, s2 % 16 * 16 + s3 / 4]
  | _ => []

/-- Model of `base64.b64decode`: strip padding, map characters to 6-bit
groups, recombine into bytes. -/
def b64decode (cs : List Char) : List Nat :=
  b64decodeSix ((cs.filter (fun c => c != '=')).map b64Index)

/-! ## UTF-8 (`bytes.decode("utf-8")`, strict) -/

/-- Strict UTF-8 decoding of a byte sequence into code points, as Python's
`bytes.decode("utf-8")`: rejects stray continuation bytes, overlong forms,
surrogates and values above `0x10FFFF`.  Returns `none` when decoding
raises `UnicodeDecodeError`. -/
def utf8Decode : List Nat → Option (List Char)
  | [] => some []
  | b :: rest =>
    if b < 0x80 then
      (utf8Decode rest).map (fun t => Char.ofNat b :: t)
    else if b < 0xC2 then none
    else if b < 0xE0 then
      match rest with
      | b2 :: rest2 =>
        if 0x80 ≤ b2 && b2 < 0xC0 then
          (utf8Decode rest2).map (fun t => Char.ofNat ((b - 0xC0) * 64 + (b2 - 0x80)) :: t)
        else none
      | [] => none
    else if b < 0xF0 then
      match rest with
      | b2 :: b3 :: rest3 =>
        if (if b = 0xE0 then 0xA0 ≤ b2 && b2 < 0xC0
            else if b = 0xED then 0x80 ≤ b2 && b2 < 0xA0
            else 0x80 ≤ b2 && b2 < 0xC0) && (0x80 ≤ b3 && b3 < 0xC0) then
          (utf8Decode rest3).map
            (fun t => Char.ofNat ((b - 0xE0) * 4096 + (b2 - 0x80) * 64 + (b3 - 0x80)) :: t)
        else none
      | _ => none
    else if b < 0xF5 then
      match rest with
      | b2 :: b3 :: b4 :: rest4 =>
        if (if b = 0xF0 then 0x90 ≤ b2 && b2 < 0xC0
            else if b = 0xF4 then 0x80 ≤ b2 && b2 < 0x90
            else 0x80 ≤ b2 && b2 < 0xC0) && (0x80 ≤ b3 && b3 < 0xC0) && (0x80 ≤ b4 && b4 < 0xC0) then
          (utf8Decode rest4).map
            (fun t => Char.ofNat
              ((b - 0xF0) * 0x40000 + (b2 - 0x80) * 4096 + (b3 - 0x80) * 64 + (b4 - 0x80)) :: t)
        else none
      | _ => none
    else none

/-! ## Data model -/

/-- A Playwright post body: either an already-decoded `str` or raw `bytes`. -/
inductive PostData where
  | str (s : List Char)
  | bytes (b : List Nat)
deriving DecidableEq

/-- Python truthiness of a post body (`if pd:`): empty `str`/`bytes` are falsy. -/
def pdTruthy : PostData → Bool
  | .str s => !s.isEmpty
  | .bytes b => !b.isEmpty

/-- The `req_info` dict built by `on_request` (main.py lines 83-88). -/
structure ReqInfo where
  method : String
  url : String
  headers : List (String × String)
  post_data : Option (List Char)
deriving DecidableEq

/-- The response dict written by `on_response` (main.py lines 116-119). -/
structure RespInfo where
  status : Int
  headers : List (String × String)
deriving DecidableEq

/-- One capture entry pairing a request dict with an optional response dict. -/
structure CaptureEntry where
  request : ReqInfo
  response : Option RespInfo
deriving DecidableEq

/-- One error record (phase plus trace) of the `"__errors__"` bucket. -/
structure ErrorRecord where
  phase : String
  error : String
deriving DecidableEq

/-- A value stored in one of `captured`'s lists: a capture entry under a real
URL, or an error record under `"__errors__"`. -/
inductive Item where
  | entry (e : CaptureEntry)
  | error (r : ErrorRecord)
deriving DecidableEq

/-- The `captured` dict: insertion-ordered association list from URL to its
list of items, as a Python dict. -/
abbrev Store := List (String × List Item)

/-- Model of `captured.get(k)`: the value at the first occurrence of `k`. -/
def dictGet : Store → String → Option (List Item)
  | [], _ => none
  | (k', l) :: rest, k => if k' = k then some l else dictGet rest k

/-- The list held under key `k`, or `[]` when the key is absent. -/
def bucket (d : Store) (k : String) : List Item :=
  (dictGet d k).getD []

/-- Model of `captured.setdefault(k, []).append(it)`: append `it` to the list under
`k`, inserting the key at the end when missing. -/
def dictAppendAt : Store → String → Item → Store
  | [], k, it => [(k, [it])]
  | (k', l) :: rest, k, it =>
    if k' = k then (k', l ++ [it]) :: rest else (k', l) :: dictAppendAt rest k it

/-- Replace the list under key `k` (in-place mutation of the dict value). -/
def dictSet : Store → String → List Item → Store
  | [], k, l' => [(k, l')]
  | (k', l) :: rest, k, l' =>
    if k' = k then (k', l') :: rest else (k', l) :: dictSet rest k l'

/-! ## Events

An event carries the data the listener's accessors return.  `raises = some tb`
models the case where one of those accessors (`request.headers`,
`response.request`, `dict(...)`, ...) raises with traceback text `tb`: in the
source every operation that can raise runs before the first store mutation,
so a raising event only ever produces an error record. -/

/-- An outbound request event as seen by `on_request`. -/
structure RequestEvent where
  method : String
  url : String
  headers : List (String × String)
  post_data : Option PostData
  raises : Option String
deriving DecidableEq

/-- An inbound response event as seen by `on_response`; the `req_*` fields
are those of `response.request`. -/
structure ResponseEvent where
  req_method : String
  url : String
  req_headers : List (String × String)
  status : Int
  headers : List (String × String)
  raises : Option String
deriving DecidableEq

/-- The inline post-data policy of `on_request` (main.py lines 66-80):
`None` and falsy bodies stay absent; a `str` body is kept as text; a `bytes`
body is decoded as UTF-8 when possible and base64-encoded otherwise. -/
def pdSafeOf : Option PostData → Option (List Char)
  | none => none
  | some p =>
    if pdTruthy p then
      match p with
      | .str s => some s
      | .bytes b =>
        match utf8Decode b with
        | some t => some t
        | none => some (b64encode b)
    else none

/-- The `req_info` dict `on_request` records for an event. -/
def reqInfoOf (request : RequestEvent) : ReqInfo :=
  { method := request.method, url := request.url, headers := request.headers,
    post_data := pdSafeOf request.post_data }

/-- The request listener (main.py lines 54-97): on success append a fresh
entry with an empty response slot under the event's URL; on an exception
append an error record tagged `"request"` to the `"__errors__"` bucket. -/
def on_request (captured : Store) (request : RequestEvent) : Store :=
  match request.raises with
  | some tb => dictAppendAt captured "__errors__" (.error ⟨"request", tb⟩)
  | none => dictAppendAt captured request.url (.entry ⟨reqInfoOf request, none⟩)

/-- The response info recorded by `on_response`. -/
def respInfoOf (response : ResponseEvent) : RespInfo :=
  { status := response.status, headers := response.headers }

/-- The synthesized request metadata (main.py line 113): taken from
`response.request`, body unknown. -/
def synthReqOf (response : ResponseEvent) : ReqInfo :=
  { method := response.req_method, url := response.url,
    headers := response.req_headers, post_data := none }

/-- The response listener (main.py lines 100-124): if the last item under
the URL is an entry with an empty response slot, fill it; otherwise append a
fresh entry synthesized from `response.request` and fill that.  A last item
that is an error record (possible only in the `"__errors__"` bucket) makes
`entries[-1]["response"]` raise `KeyError`, which the handler logs.  An
accessor exception is logged with phase `"response"`. -/
def on_response (captured : Store) (response : ResponseEvent) : Store :=
  match response.raises with
  | some tb => dictAppendAt captured "__errors__" (.error ⟨"response", tb⟩)
  | none =>
    match dictGet captured response.url with
    | some items =>
      match items.getLast? with
      | some (.entry e) =>
        if e.response = none then
          dictSet captured response.url
            (items.dropLast ++ [.entry { e with response := some (respInfoOf response) }])
        else
          dictAppendAt captured response.url (.entry ⟨synthReqOf response, some (respInfoOf response)⟩)
      | some (.error _) =>
        dictAppendAt captured "__errors__" (.error ⟨"response", "KeyError: response"⟩)
      | none =>
        dictAppendAt captured response.url (.entry ⟨synthReqOf response, some (respInfoOf response)⟩)
    | none =>
      dictAppendAt captured response.url (.entry ⟨synthReqOf response, some (respInfoOf response)⟩)

/-! ## Target selection (main.py lines 149-182) -/

/-- Python truthiness of an optional string (`if target_request:`, `if ua:`):
`None` and the empty string are falsy. -/
def optStrTruthy : Option String → Bool
  | none => false
  | some s => !(s == "")

/-- Python truthiness of the `matched` variable (`if not matched:` is taken
when `matched` is still `None` or an empty list). -/
def matchedFalsy : Option (List Item) → Bool
  | none => true
  | some l => l.isEmpty

/-- One `for req_url, entries in captured.items(): ... break` selection loop:
the first non-`"__errors__"` key whose URL satisfies `p`, with its items. -/
def findLoop (captured : Store) (p : String → Bool) : Option (String × List Item) :=
  captured.find? (fun kv => (kv.1 != "__errors__") && p kv.1)

/-- The three-tier target-selection logic, returning
(`matched`, `matched_url`).  Rule 1 uses the caller's `target_request`
substring, rule 2 the navigated page URL, rule 3 the hardcoded
`"LookupService"` / `"/anji/"` heuristic; each later rule runs only when
`matched` is still falsy. -/
def selectTarget (captured : Store) (target_request : Option String) (url : String) :
    Option (List Item) × Option String :=
  let s0 : Option (List Item) × Option String := (none, none)
  let s1 :=
    if optStrTruthy target_request then
      match findLoop captured (fun ru => strContains ru (target_request.getD "")) with
      | some (ru, es) => (some es, some ru)
      | none => s0
    else s0
  let s2 :=
    if matchedFalsy s1.1 then
      match findLoop captured (fun ru => strContains ru url || ru == url) with
      | some (ru, es) => (some es, some ru)
      | none => s1
    else s1
  let s3 :=
    if matchedFalsy s2.1 then
      match findLoop captured
          (fun ru => strContains ru "LookupService" || strContains ru "/anji/") with
      | some (ru, es) => (some es, some ru)
      | none => s2
    else s2
  s3

/-! ## Cookie header assembly (main.py lines 143-147) and its split -/

/-- Python `"; ".join(parts)` at the character level. -/
def joinSemiSp : List (List Char) → List Char
  | [] => []
  | [x] => x
  | x :: xs => x ++ ';' :: ' ' :: joinSemiSp xs

/-- One `f"{k}={v}"` cookie pair. -/
def cookiePairCh (kv : List Char × List Char) : List Char :=
  kv.1 ++ '=' :: kv.2

/-- The assembled `cookie_header` string,
`"; ".join([f"{k}={v}" for k, v in cookie_dict.items()])`. -/
def cookieHeaderCh (d : List (List Char × List Char)) : List Char :=
  joinSemiSp (d.map cookiePairCh)

/-- Python `s.split("; ")` (split on every non-overlapping occurrence of the
two-character separator, scanning left to right; `"".split("; ") == [""]`). -/
def pySplitSemiSp : List Char → List (List Char)
  | [] => [[]]
  | ';' :: ' ' :: rest => [] :: pySplitSemiSp rest
  | c :: rest =>
    match pySplitSemiSp rest with
    | [] => [[c]]
    | x :: xs => (c :: x) :: xs

/-- Does the string contain the separator `"; "`? -/
def hasSemiSp : List Char → Bool
  | [] => false
  | ';' :: ' ' :: _ => true
  | _ :: rest => hasSemiSp rest

/-! ## Result assembly (main.py lines 185-219) -/

/-- Effect of `d.setdefault(k, v)` on the dict: insert `(k, v)` at the end
only when the key is absent. -/
def strDictSetdefault (d : List (String × String)) (k v : String) :
    List (String × String) :=
  if (d.find? (fun kv => kv.1 == k)).isSome then d else d ++ [(k, v)]

/-- Is `k` a key of the dict? -/
def strDictHasKey (d : List (String × String)) (k : String) : Bool :=
  (d.find? (fun kv => kv.1 == k)).isSome

/-- Model of `normalize_entry` (main.py lines 185-201): copy the entry, default-fill
a `User-Agent` request header from `ua` when `ua` is truthy, keep the
response exactly as captured (possibly `None`). -/
def normalize_entry (ua : Option String) (e : CaptureEntry) : CaptureEntry :=
  let req := e.request
  let headers :=
    if optStrTruthy ua then strDictSetdefault req.headers "User-Agent" (ua.getD "")
    else req.headers
  { request := { method := req.method, url := req.url, headers := headers,
                 post_data := req.post_data },
    response := e.response }

/-- The summary list
`all_req_urls = [u for u in captured.keys() if u != "__errors__"][:200]`
(main.py line 206). -/
def all_req_urls (captured : Store) : List String :=
  ((captured.map Prod.fst).filter (fun u => u ≠ "__errors__")).take 200

/-- The count `total_requests_captured = len(all_req_urls)` (main.py line 219). -/
def total_requests_captured (captured : Store) : Nat :=
  (all_req_urls captured).length

/-! ## Store well-formedness -/

/-- Is the item a capture entry (not an error record)? -/
def Item.isEntry : Item → Bool
  | .entry _ => true
  | .error _ => false

/-- Well-formed store: every bucket of a real URL holds only capture
entries.  Holds for every store the two listeners build. -/
def WFStore (captured : Store) : Prop :=
  ∀ kv ∈ captured, kv.1 ≠ "__errors__" → ∀ it ∈ kv.2, it.isEntry = true

/-- Number of capture entries in the whole store. -/
def numEntries (captured : Store) : Nat :=
  (captured.map (fun kv => (kv.2.filter Item.isEntry).length)).sum

/-! ## Helper lemmas: dict operations -/

theorem dictGet_dictAppendAt_self (d : Store) (k : String) (it : Item) :
    dictGet (dictAppendAt d k it) k = some (bucket d k ++ [it]) := by
  induction d with
  | nil => simp [dictAppendAt, dictGet, bucket]
  | cons kv rest ih =>
    obtain ⟨k', l⟩ := kv
    by_cases h : k' = k
    · simp [dictAppendAt, dictGet, bucket, h]
    · simp [dictAppendAt, dictGet, bucket, h] at ih ⊢
      exact ih

theorem dictGet_dictAppendAt_ne (d : Store) (k k' : String) (it : Item) (h : k' ≠ k) :
    dictGet (dictAppendAt d k it) k' = dictGet d k' := by
  induction d with
  | nil => simp [dictAppendAt, dictGet, Ne.symm h]
  | cons kv rest ih =>
    obtain ⟨k0, l⟩ := kv
    by_cases h0 : k0 = k
    · subst h0
      simp [dictAppendAt, dictGet, Ne.symm h]
    · simp [dictAppendAt, dictGet, h0]
      by_cases h1 : k0 = k'
      · simp [h1]
      · simp [h1, ih]

theorem dictGet_dictSet_self (d : Store) (k : String) (l' : List Item) :
    dictGet (dictSet d k l') k = some l' := by
  induction d with
  | nil => simp [dictSet, dictGet]
  | cons kv rest ih =>
    obtain ⟨k0, l⟩ := kv
    by_cases h0 : k0 = k
    · simp [dictSet, dictGet, h0]
    · simp [dictSet, dictGet, h0, ih]

theorem dictGet_dictSet_ne (d : Store) (k k' : String) (l' : List Item) (h : k' ≠ k) :
    dictGet (dictSet d k l') k' = dictGet d k' := by
  induction d with
  | nil => simp [dictSet, dictGet, Ne.symm h]
  | cons kv rest ih =>
    obtain ⟨k0, l⟩ := kv
    by_cases h0 : k0 = k
    · subst h0
      simp [dictSet, dictGet, Ne.symm h]
    · simp [dictSet, dictGet, h0]
      by_cases h1 : k0 = k'
      · simp [h1]
      · simp [h1, ih]

theorem bucket_dictAppendAt_self (d : Store) (k : String) (it : Item) :
    bucket (dictAppendAt d k it) k = bucket d k ++ [it] := by
  simp [bucket, dictGet_dictAppendAt_self]

theorem bucket_dictAppendAt_ne (d : Store) (k k' : String) (it : Item) (h : k' ≠ k) :
    bucket (dictAppendAt d k it) k' = bucket d k' := by
  simp [bucket, dictGet_dictAppendAt_ne d k k' it h]

theorem bucket_dictSet_self (d : Store) (k : String) (l' : List Item) :
    bucket (dictSet d k l') k = l' := by
  simp [bucket, dictGet_dictSet_self]

theorem bucket_dictSet_ne (d : Store) (k k' : String) (l' : List Item) (h : k' ≠ k) :
    bucket (dictSet d k l') k' = bucket d k' := by
  simp [bucket, dictGet_dictSet_ne d k k' l' h]

theorem numEntries_dictAppendAt (d : Store) (k : String) (it : Item) :
    numEntries (dictAppendAt d k it) =
      numEntries d + (if it.isEntry then 1 else 0) := by
  induction d with
  | nil =>
    simp only [dictAppendAt, numEntries, List.map_cons, List.map_nil, List.sum_cons,
      List.sum_nil, List.filter]
    cases hit : it.isEntry <;> simp [hit]
  | cons kv rest ih =>
    obtain ⟨k0, l⟩ := kv
    by_cases h0 : k0 = k
    · simp only [dictAppendAt, numEntries, h0, if_pos rfl, List.map_cons, List.sum_cons,
        List.filter_append, List.length_append, List.filter]
      cases hit : it.isEntry
      · simp [hit]
      · simp [hit]
        omega
    · simp [dictAppendAt, numEntries, h0] at ih ⊢
      omega

/-! ## Helper lemmas: base64 round trip -/

theorem b64Char_ne_pad (n : Nat) : b64Char n ≠ '=' := by
  rcases lt_or_ge n 64 with h | h
  · have hball : ∀ m, m < 64 → b64Char m ≠ '=' := by decide
    exact hball n h
  · unfold b64Char
    rw [List.getD_eq_default]
    · decide
    · have hlen : b64Alphabet.length = 64 := by decide
      omega

theorem b64Index_b64Char : ∀ n, n < 64 → b64Index (b64Char n) = n := by decide

theorem b64decode_b64encode :
    ∀ bs : List Nat, (∀ b ∈ bs, b < 256) → b64decode (b64encode bs) = bs
  | [], _ => rfl
  | [b1], h => by
    have h1 : b1 < 256 := h b1 (by simp)
    have hf : ((b64encode [b1]).filter (fun c => c != '=')) =
        [b64Char (b1 / 4), b64Char (b1 % 4 * 16)] := by
      simp [b64encode, List.filter_cons, bne_iff_ne, b64Char_ne_pad]
    have hs1 : b1 / 4 < 64 := by omega
    have hs2 : b1 % 4 * 16 < 64 := by omega
    simp only [b64decode, hf, List.map_cons, List.map_nil,
      b64Index_b64Char _ hs1, b64Index_b64Char _ hs2, b64decodeSix]
    rw [show b1 / 4 * 4 + b1 % 4 * 16 / 16 = b1 by omega]
  | [b1, b2], h => by
    have h1 : b1 < 256 := h b1 (by simp)
    have h2 : b2 < 256 := h b2 (by simp)
    have hf : ((b64encode [b1, b2]).filter (fun c => c != '=')) =
        [b64Char (b1 / 4), b64Char (b1 % 4 * 16 + b2 / 16), b64Char (b2 % 16 * 4)] := by
      simp [b64encode, List.filter_cons, bne_iff_ne, b64Char_ne_pad]
    have hs1 : b1 / 4 < 64 := by omega
    have hs2 : b1 % 4 * 16 + b2 / 16 < 64 := by omega
    have hs3 : b2 % 16 * 4 < 64 := by omega
    simp only [b64decode, hf, List.map_cons, List.map_nil,
      b64Index_b64Char _ hs1, b64Index_b64Char _ hs2, b64Index_b64Char _ hs3, b64decodeSix]
    rw [show b1 / 4 * 4 + (b1 % 4 * 16 + b2 / 16) / 16 = b1 by omega,
        show (b1 % 4 * 16 + b2 / 16) % 16 * 16 + b2 % 16 * 4 / 4 = b2 by omega]
  | b1 :: b2 :: b3 :: rest, h => by
    have h1 : b1 < 256 := h b1 (by simp)
    have h2 : b2 < 256 := h b2 (by simp)
    have h3 : b3 < 256 := h b3 (by simp)
    have ih := b64decode_b64encode rest (fun b hb => h b (by simp [hb]))
    have hs1 : b1 / 4 < 64 := by omega
    have hs2 : b1 % 4 * 16 + b2 / 16 < 64 := by omega
    have hs3 : b2 % 16 * 4 + b3 / 64 < 64 := by omega
    have hs4 : b3 % 64 < 64 := by omega
    have he : b64encode (b1 :: b2 :: b3 :: rest) =
        b64Char (b1 / 4) :: b64Char (b1 % 4 * 16 + b2 / 16) ::
          b64Char (b2 % 16 * 4 + b3 / 64) :: b64Char (b3 % 64) :: b64encode rest := rfl
    have hf : ((b64encode (b1 :: b2 :: b3 :: rest)).filter (fun c => c != '=')) =
        b64Char (b1 / 4) :: b64Char (b1 % 4 * 16 + b2 / 16) ::
          b64Char (b2 % 16 * 4 + b3 / 64) :: b64Char (b3 % 64) ::
            ((b64encode rest).filter (fun c => c != '=')) := by
      rw [he]
      simp [List.filter_cons, bne_iff_ne, b64Char_ne_pad]
    simp only [b64decode, hf, List.map_cons,
      b64Index_b64Char _ hs1, b64Index_b64Char _ hs2, b64Index_b64Char _ hs3,
      b64Index_b64Char _ hs4, b64decodeSix]
    rw [show b1 / 4 * 4 + (b1 % 4 * 16 + b2 / 16) / 16 = b1 by omega,
        show (b1 % 4 * 16 + b2 / 16) % 16 * 16 + (b2 % 16 * 4 + b3 / 64) / 4 = b2 by omega,
        show (b2 % 16 * 4 + b3 / 64) % 4 * 64 + b3 % 64 = b3 by omega]
    simp only [b64decode] at ih
    rw [ih]

/-! ## Helper lemmas: cookie-header split -/

theorem pySplit_cons (c : Char) (rest : List Char)
    (h : ¬(c = ';' ∧ ∃ r2, rest = ' ' :: r2)) :
    pySplitSemiSp (c :: rest) =
      match pySplitSemiSp rest with
      | [] => [[c]]
      | x :: xs => (c :: x) :: xs := by
  rw [pySplitSemiSp.eq_def]
  split
  · rename_i heq; exact absurd heq (by simp)
  · rename_i r2 heq
    rw [List.cons_eq_cons] at heq
    obtain ⟨hc, hr⟩ := heq
    exact absurd ⟨hc, r2, hr⟩ h
  · rename_i c' rest' h1 h2
    rw [List.cons_eq_cons] at h2
    obtain ⟨hc, hr⟩ := h2
    subst hc; subst hr
    rfl

theorem hasSemiSp_cons_false {c : Char} {rest : List Char}
    (h : hasSemiSp (c :: rest) = false) :
    hasSemiSp rest = false ∧ ¬(c = ';' ∧ ∃ r2, rest = ' ' :: r2) := by
  rw [hasSemiSp.eq_def] at h
  split at h
  · rename_i heq; exact absurd heq (by simp)
  · exact absurd h (by simp)
  · rename_i c' rest' h1 h2
    rw [List.cons_eq_cons] at h2
    obtain ⟨hc, hr⟩ := h2
    subst hc; subst hr
    refine ⟨h, ?_⟩
    rintro ⟨hc, r2, hr⟩
    exact h1 r2 hc hr

theorem pySplit_no_sep : ∀ x : List Char, hasSemiSp x = false → pySplitSemiSp x = [x]
  | [], _ => rfl
  | c :: rest, h => by
    obtain ⟨hrest, hng⟩ := hasSemiSp_cons_false h
    rw [pySplit_cons c rest hng, pySplit_no_sep rest hrest]

theorem pySplit_append_sep : ∀ x t : List Char, hasSemiSp x = false →
    pySplitSemiSp (x ++ ';' :: ' ' :: t) = x :: pySplitSemiSp t
  | [], t, _ => by
    rw [List.nil_append]
    rfl
  | c :: x', t, h => by
    obtain ⟨hx', hng⟩ := hasSemiSp_cons_false h
    have hng2 : ¬(c = ';' ∧ ∃ r2, x' ++ ';' :: ' ' :: t = ' ' :: r2) := by
      rintro ⟨hc, r2, hr⟩
      cases x' with
      | nil => simp at hr
      | cons d x'' =>
        rw [List.cons_append, List.cons_eq_cons] at hr
        exact hng ⟨hc, x'', by rw [hr.1]⟩
    rw [List.cons_append, pySplit_cons c _ hng2, pySplit_append_sep x' t hx']

theorem cookie_header_split (d : List (List Char × List Char)) (hne : d ≠ [])
    (hsep : ∀ kv ∈ d, hasSemiSp (cookiePairCh kv) = false) :
    pySplitSemiSp (cookieHeaderCh d) = d.map cookiePairCh := by
  induction d with
  | nil => exact absurd rfl hne
  | cons kv d' ih =>
    cases d' with
    | nil =>
      show pySplitSemiSp (joinSemiSp [cookiePairCh kv]) = [cookiePairCh kv]
      rw [show joinSemiSp [cookiePairCh kv] = cookiePairCh kv from rfl]
      exact pySplit_no_sep _ (hsep kv (by simp))
    | cons kv2 d'' =>
      have hj : cookieHeaderCh (kv :: kv2 :: d'') =
          cookiePairCh kv ++ ';' :: ' ' :: cookieHeaderCh (kv2 :: d'') := rfl
      rw [hj, pySplit_append_sep _ _ (hsep kv (by simp)),
        ih (by simp) (fun kv h => hsep kv (by simp [h]))]
      rfl

/-! ## Claim theorems -/

/-- C6 (counterexample): the cookie-header round trip fails exactly where the
claim insists it holds.  For the single cookie `k = "a; b"` (value containing
the separator) the split produces the pair fragment `"b"`, which is not among
the dict's `key=value` strings; and for the empty cookie dict the split of the
empty header produces the spurious element `""`.  So splitting the assembled
header does not reproduce the same set of `key=value` pairs as the dict. -/
theorem cookie_header_split_counterexample :
    (['b'] ∈ pySplitSemiSp (cookieHeaderCh [(['k'], ['a', ';', ' ', 'b'])]) ∧
      ['b'] ∉ ([(['k'], ['a', ';', ' ', 'b'])].map cookiePairCh)) ∧
    (([] : List Char) ∈ pySplitSemiSp (cookieHeaderCh ([] : List (List Char × List Char))) ∧
      (([] : List Char) ∉ (([] : List (List Char × List Char)).map cookiePairCh))) := by
  decide

/-- C6 (amended): for every non-empty cookie dict none of whose `key=value`
strings contains the separator `"; "`, splitting the assembled
`cookie_header` on `"; "` reproduces the dict's `key=value` pairs exactly
(even as a list, hence as a set). -/
theorem cookie_header_split_roundtrip (d : List (List Char × List Char)) (hne : d ≠ [])
    (hsep : ∀ kv ∈ d, hasSemiSp (cookiePairCh kv) = false) :
    pySplitSemiSp (cookieHeaderCh d) = d.map cookiePairCh :=
  cookie_header_split d hne hsep

/-- C6 witness: the round trip at the concrete dict `{s: 1}`. -/
theorem cookie_header_split_roundtrip_witness :
    pySplitSemiSp (cookieHeaderCh [(['s'], ['1'])]) = [(['s'], ['1'])].map cookiePairCh :=
  cookie_header_split_roundtrip [(['s'], ['1'])] (by decide) (by decide)

/-- C7 (counterexample): the empty byte string `b""` decodes as the UTF-8
text `""`, but `on_request`'s body handling stores it as absent (`None`),
because `if pd:` treats an empty body as no body — so the claim's "for every
request body" fails at the empty body. -/
theorem body_policy_counterexample :
    utf8Decode [] = some [] ∧
    pdSafeOf (some (PostData.bytes [])) = none ∧
    (none : Option (List Char)) ≠ some [] := by
  decide

/-- C7 (amended): for every non-empty request body the stored value follows
the claimed policy: a `str` body is stored as that text; a `bytes` body that
decodes as UTF-8 is stored as the decoded text; any other `bytes` body is
stored base64-encoded, and base64-decoding the stored string recovers the
original byte sequence exactly. -/
theorem body_policy_roundtrip (b : List Nat) (hb : ∀ x ∈ b, x < 256) (hne : b ≠ []) :
    (∀ t, utf8Decode b = some t → pdSafeOf (some (PostData.bytes b)) = some t) ∧
    (utf8Decode b = none →
      pdSafeOf (some (PostData.bytes b)) = some (b64encode b) ∧
        b64decode (b64encode b) = b) ∧
    (∀ s : List Char, s ≠ [] → pdSafeOf (some (PostData.str s)) = some s) := by
  have hE : b.isEmpty = false := by
    cases b with
    | nil => exact absurd rfl hne
    | cons x xs => rfl
  refine ⟨?_, ?_, ?_⟩
  · intro t ht
    simp [pdSafeOf, pdTruthy, hE, ht]
  · intro ht
    refine ⟨by simp [pdSafeOf, pdTruthy, hE, ht], b64decode_b64encode b hb⟩
  · intro s hs
    have hsE : s.isEmpty = false := by
      cases s with
      | nil => exact absurd rfl hs
      | cons x xs => rfl
    simp [pdSafeOf, pdTruthy, hsE]

/-- C7 witness: the non-UTF-8 body `b"\xff"` is stored base64-encoded and
decodes back to the original byte. -/
theorem body_policy_roundtrip_witness :
    pdSafeOf (some (PostData.bytes [255])) = some (b64encode [255]) ∧
      b64decode (b64encode [255]) = [255] :=
  (body_policy_roundtrip [255] (by decide) (by decide)).2.1 (by decide)

/-- C9: target selection is deterministic and idempotent.  The selection code
(main.py lines 149-182) only reads `captured`, `target_request` and `url` and
mutates nothing, so it is a pure function of those inputs: two runs against
the same unchanged capture store with the same substring and page URL yield
the same `matched` entry list and the same `matched_url`. -/
theorem selection_deterministic (st1 st2 : Store) (tr1 tr2 : Option String)
    (u1 u2 : String) (hst : st1 = st2) (htr : tr1 = tr2) (hu : u1 = u2) :
    selectTarget st1 tr1 u1 = selectTarget st2 tr2 u2 := by
  subst hst
  subst htr
  subst hu
  rfl

/-- C9 witness: two runs on a concrete store agree. -/
theorem selection_deterministic_witness :
    selectTarget [("a", [Item.entry ⟨⟨"GET", "a", [], none⟩, none⟩])] (some "a") "p" =
      selectTarget [("a", [Item.entry ⟨⟨"GET", "a", [], none⟩, none⟩])] (some "a") "p" :=
  selection_deterministic _ _ _ _ _ _ rfl rfl rfl

/-- C10: the URL summary (main.py lines 205-219) always excludes the
`"__errors__"` bucket key, holds at most 200 URLs, and
`total_requests_captured` is the length of that truncated list of distinct
captured URL keys — not the number of request events recorded. -/
theorem url_summary_spec (captured : Store) :
    (all_req_urls captured).length ≤ 200 ∧
    "__errors__" ∉ all_req_urls captured ∧
    total_requests_captured captured = (all_req_urls captured).length ∧
    all_req_urls captured =
      ((captured.map Prod.fst).filter (fun u => u ≠ "__errors__")).take 200 := by
  refine ⟨?_, ?_, rfl, rfl⟩
  · exact List.length_take_le 200 ((captured.map Prod.fst).filter (fun u => u ≠ "__errors__"))
  · intro hmem
    have hmem' := List.mem_of_mem_take hmem
    have := (List.mem_filter.mp hmem').2
    simp at this

/-- A successful lookup returns a pair of the store. -/
theorem dictGet_mem : ∀ (d : Store) (k : String) (l : List Item),
    dictGet d k = some l → (k, l) ∈ d
  | [], _, _, h => by simp [dictGet] at h
  | (k0, l0) :: rest, k, l, h => by
    by_cases h0 : k0 = k
    · subst h0
      simp [dictGet] at h
      simp [h]
    · simp only [dictGet, if_neg h0] at h
      exact List.mem_cons_of_mem _ (dictGet_mem rest k l h)

/-- C1 (counterexample): two requests to the same URL `"u"` are recorded,
then one response for `"u"` arrives.  The claim says the response attaches
to the first (oldest) entry; the code attaches it to `entries[-1]`, the
second (newest) entry: afterwards the first entry's response slot is still
empty and the second entry carries the response. -/
theorem response_fifo_counterexample :
    bucket
      (on_response
        (on_request
          (on_request [] ⟨"GET", "u", [("h", "1")], none, none⟩)
          ⟨"GET", "u", [("h", "2")], none, none⟩)
        ⟨"GET", "u", [], 200, [("s", "ok")], none⟩) "u" =
      [Item.entry ⟨⟨"GET", "u", [("h", "1")], none⟩, none⟩,
       Item.entry ⟨⟨"GET", "u", [("h", "2")], none⟩, some ⟨200, [("s", "ok")]⟩⟩] := by
  decide

/-- C1 (amended): response events for a URL attach newest-unmatched-first,
not FIFO: a successfully processed response attaches to the *last* entry for
its URL whenever that entry's response slot is still empty, leaving all
earlier entries (matched or not) and all other URLs untouched.  In
particular, if two requests to the same URL are recorded before either
response arrives, the first response attaches to the second (most recent)
request's entry, not to the first. -/
theorem response_attaches_to_newest (st : Store) (sev : ResponseEvent)
    (hr : sev.raises = none) (e : CaptureEntry) (rest : List Item)
    (hb : bucket st sev.url = rest ++ [Item.entry e]) (he : e.response = none) :
    bucket (on_response st sev) sev.url =
      rest ++ [Item.entry { e with response := some (respInfoOf sev) }] ∧
    (∀ u, u ≠ sev.url → bucket (on_response st sev) u = bucket st u) := by
  have hget : dictGet st sev.url = some (rest ++ [Item.entry e]) := by
    cases hg : dictGet st sev.url with
    | none => simp [bucket, hg] at hb
    | some items =>
      simp only [bucket, hg, Option.getD_some] at hb
      rw [hb]
  have hlast : (rest ++ [Item.entry e]).getLast? = some (Item.entry e) :=
    List.getLast?_concat rest
  have hstep : on_response st sev =
      dictSet st sev.url
        ((rest ++ [Item.entry e]).dropLast ++
          [Item.entry { e with response := some (respInfoOf sev) }]) := by
    simp [on_response, hr, hget, hlast, he]
  rw [hstep, List.dropLast_concat]
  exact ⟨bucket_dictSet_self st sev.url _,
    fun u hu => bucket_dictSet_ne st sev.url u _ hu⟩

/-- C1 witness: the amended behavior at the concrete two-request trace. -/
theorem response_attaches_to_newest_witness :
    bucket
      (on_response
        (on_request
          (on_request [] ⟨"GET", "u", [("h", "1")], none, none⟩)
          ⟨"GET", "u", [("h", "2")], none, none⟩)
        ⟨"GET", "u", [], 200, [("s", "ok")], none⟩) "u" =
      [Item.entry ⟨⟨"GET", "u", [("h", "1")], none⟩, none⟩] ++
        [Item.entry ⟨⟨"GET", "u", [("h", "2")], none⟩, some ⟨200, [("s", "ok")]⟩⟩] :=
  (response_attaches_to_newest
    (on_request (on_request [] ⟨"GET", "u", [("h", "1")], none, none⟩)
      ⟨"GET", "u", [("h", "2")], none, none⟩)
    ⟨"GET", "u", [], 200, [("s", "ok")], none⟩ rfl
    ⟨⟨"GET", "u", [("h", "2")], none⟩, none⟩
    [Item.entry ⟨⟨"GET", "u", [("h", "1")], none⟩, none⟩] (by decide) rfl).1

/-- C3: a successfully processed response event whose URL has no entry with
an empty response slot (a URL with no entries at all included) synthesizes
exactly one new entry — request metadata taken from `response.request`, body
unknown — appends it to that URL's bucket, leaves every other bucket
unchanged, and increases the total entry count by exactly one. -/
theorem response_synthesizes_entry (st : Store) (sev : ResponseEvent)
    (hr : sev.raises = none)
    (hfull : ∀ it ∈ bucket st sev.url, ∃ e, it = Item.entry e ∧ e.response ≠ none) :
    bucket (on_response st sev) sev.url =
      bucket st sev.url ++ [Item.entry ⟨synthReqOf sev, some (respInfoOf sev)⟩] ∧
    (∀ u, u ≠ sev.url → bucket (on_response st sev) u = bucket st u) ∧
    numEntries (on_response st sev) = numEntries st + 1 := by
  have hstep : on_response st sev =
      dictAppendAt st sev.url (Item.entry ⟨synthReqOf sev, some (respInfoOf sev)⟩) := by
    cases hg : dictGet st sev.url with
    | none => simp [on_response, hr, hg]
    | some items =>
      cases hl : items.getLast? with
      | none =>
        simp [on_response, hr, hg, hl]
      | some it =>
        have hmem : it ∈ bucket st sev.url := by
          rw [bucket, hg]
          obtain ⟨hne2, heq⟩ := List.mem_getLast?_eq_getLast (l := items) (x := it) hl
          rw [heq]
          exact List.getLast_mem hne2
        obtain ⟨e, hit, hresp⟩ := hfull it hmem
        subst hit
        simp [on_response, hr, hg, hl, hresp]
  rw [hstep]
  refine ⟨bucket_dictAppendAt_self st sev.url _,
    fun u hu2 => bucket_dictAppendAt_ne st sev.url u _ hu2, ?_⟩
  rw [numEntries_dictAppendAt]
  rfl

/-- C3 witness: a response for a URL never requested synthesizes one entry. -/
theorem response_synthesizes_entry_witness :
    bucket (on_response [] ⟨"GET", "v", [("a", "b")], 404, [], none⟩) "v" =
      [] ++ [Item.entry ⟨⟨"GET", "v", [("a", "b")], none⟩, some ⟨404, []⟩⟩] :=
  (response_synthesizes_entry [] ⟨"GET", "v", [("a", "b")], 404, [], none⟩ rfl
    (by intro it h; simp [bucket, dictGet] at h)).1

/-- C5: capture-time exceptions are swallowed, never propagated.  A raising
request event appends exactly one `"request"`-phase record with its stack
description to the `"__errors__"` bucket; a raising response event appends
exactly one `"response"`-phase record; in both cases every real-URL bucket is
left unchanged (in the source every operation that can raise runs before the
first store mutation); and a subsequent successful request event is still
recorded normally. -/
theorem capture_errors_swallowed (st : Store) (rev : RequestEvent)
    (sev : ResponseEvent) (tb tb2 : String)
    (hr : rev.raises = some tb) (hs : sev.raises = some tb2)
    (rev2 : RequestEvent) (h2 : rev2.raises = none) :
    bucket (on_request st rev) "__errors__" =
      bucket st "__errors__" ++ [Item.error ⟨"request", tb⟩] ∧
    (∀ u, u ≠ "__errors__" → bucket (on_request st rev) u = bucket st u) ∧
    bucket (on_response st sev) "__errors__" =
      bucket st "__errors__" ++ [Item.error ⟨"response", tb2⟩] ∧
    (∀ u, u ≠ "__errors__" → bucket (on_response st sev) u = bucket st u) ∧
    bucket (on_request (on_request st rev) rev2) rev2.url =
      bucket (on_request st rev) rev2.url ++ [Item.entry ⟨reqInfoOf rev2, none⟩] := by
  have e1 : on_request st rev = dictAppendAt st "__errors__" (.error ⟨"request", tb⟩) := by
    simp [on_request, hr]
  have e2 : on_response st sev = dictAppendAt st "__errors__" (.error ⟨"response", tb2⟩) := by
    simp [on_response, hs]
  have e3 : on_request (on_request st rev) rev2 =
      dictAppendAt (on_request st rev) rev2.url (.entry ⟨reqInfoOf rev2, none⟩) := by
    simp [on_request, h2]
  refine ⟨?_, ?_, ?_, ?_, ?_⟩
  · rw [e1, bucket_dictAppendAt_self]
  · intro u hu
    rw [e1, bucket_dictAppendAt_ne _ _ _ _ hu]
  · rw [e2, bucket_dictAppendAt_self]
  · intro u hu
    rw [e2, bucket_dictAppendAt_ne _ _ _ _ hu]
  · rw [e3, bucket_dictAppendAt_self]

/-- C5 witness: a raising response then a normal request on the empty store. -/
theorem capture_errors_swallowed_witness :
    bucket (on_response [] ⟨"GET", "u", [], 0, [], some "crash"⟩) "__errors__" =
      bucket ([] : Store) "__errors__" ++ [Item.error ⟨"response", "crash"⟩] ∧
    bucket (on_request (on_request [] ⟨"GET", "u", [], none, some "boom"⟩)
        ⟨"GET", "w", [], none, none⟩) "w" =
      bucket (on_request [] ⟨"GET", "u", [], none, some "boom"⟩) "w" ++
        [Item.entry ⟨reqInfoOf ⟨"GET", "w", [], none, none⟩, none⟩] := by
  have h := capture_errors_swallowed [] ⟨"GET", "u", [], none, some "boom"⟩
    ⟨"GET", "u", [], 0, [], some "crash"⟩ "boom" "crash" rfl rfl
    ⟨"GET", "w", [], none, none⟩ rfl
  exact ⟨h.2.2.1, h.2.2.2.2⟩

/-- C8: result assembly is a frame-preserving normalization.  For every
selected entry, `normalize_entry` keeps the method, URL, post body and the
response (`None` included) exactly as captured; the request headers are
either kept unchanged or extended with exactly one `User-Agent` pair — the
latter only when a truthy user-agent string was obtained and the
`User-Agent` key is not already present. -/
theorem normalize_entry_frame (ua : Option String) (e : CaptureEntry) :
    (normalize_entry ua e).request.method = e.request.method ∧
    (normalize_entry ua e).request.url = e.request.url ∧
    (normalize_entry ua e).request.post_data = e.request.post_data ∧
    (normalize_entry ua e).response = e.response ∧
    (strDictHasKey e.request.headers "User-Agent" = true →
      (normalize_entry ua e).request.headers = e.request.headers) ∧
    (optStrTruthy ua = false →
      (normalize_entry ua e).request.headers = e.request.headers) ∧
    ((normalize_entry ua e).request.headers = e.request.headers ∨
      (optStrTruthy ua = true ∧ strDictHasKey e.request.headers "User-Agent" = false ∧
        (normalize_entry ua e).request.headers =
          e.request.headers ++ [("User-Agent", ua.getD "")])) := by
  refine ⟨rfl, rfl, rfl, rfl, ?_, ?_, ?_⟩
  · intro hk
    simp only [normalize_entry, strDictSetdefault, strDictHasKey] at hk ⊢
    by_cases hua : optStrTruthy ua
    · simp [hua, hk]
    · simp [hua]
  · intro hua
    simp [normalize_entry, hua]
  · by_cases hua : optStrTruthy ua
    · by_cases hk : strDictHasKey e.request.headers "User-Agent"
      · left
        simp only [normalize_entry, strDictSetdefault, strDictHasKey] at hk ⊢
        simp [hua, hk]
      · right
        refine ⟨hua, by simpa using hk, ?_⟩
        simp only [normalize_entry, strDictSetdefault, strDictHasKey] at hk ⊢
        simp only [Bool.not_eq_true] at hk
        simp [hua, hk]
    · left
      simp only [normalize_entry, if_neg hua]

/-- C8 witness: `normalize_entry` at a concrete entry without a `User-Agent`
header and a truthy user-agent string. -/
theorem normalize_entry_frame_witness :
    (normalize_entry (some "UA1") ⟨⟨"GET", "u", [("Accept", "x")], none⟩,
        some ⟨200, []⟩⟩).response = some ⟨200, []⟩ :=
  (normalize_entry_frame (some "UA1")
    ⟨⟨"GET", "u", [("Accept", "x")], none⟩, some ⟨200, []⟩⟩).2.2.2.1

/-- C4: target-selection precedence.  When a truthy `target_request`
substring is supplied and some captured URL other than the `"__errors__"`
bucket contains it (all buckets being non-empty, as every store built by the
listeners satisfies), the selection returns the entry list of the *first*
such URL in first-observed iteration order — for every page URL, so the
page-URL rule and the hardcoded-substring fallback are never consulted once
the first rule has produced a non-empty result. -/
theorem target_selection_precedence (captured : Store) (tr : String) (htr : tr ≠ "")
    (hne : ∀ kv ∈ captured, kv.2 ≠ ([] : List Item))
    (hex : ∃ kv ∈ captured, kv.1 ≠ "__errors__" ∧ strContains kv.1 tr = true) :
    ∃ kv, findLoop captured (fun ru => strContains ru tr) = some kv ∧
      kv.1 ≠ "__errors__" ∧ strContains kv.1 tr = true ∧
      ∀ url : String, selectTarget captured (some tr) url = (some kv.2, some kv.1) := by
  have hiss : (captured.find?
      (fun kv => (kv.1 != "__errors__") && strContains kv.1 tr)).isSome := by
    refine List.find?_isSome.mpr ?_
    obtain ⟨kv, hm, h1, h2⟩ := hex
    exact ⟨kv, hm, by simp [h1, h2]⟩
  obtain ⟨kv, hfind⟩ := Option.isSome_iff_exists.mp hiss
  have hp := List.find?_some hfind
  have hmem := List.mem_of_find?_eq_some hfind
  have hp2 : (kv.1 != "__errors__") = true ∧ strContains kv.1 tr = true := by
    simpa using hp
  have hne1 : kv.1 ≠ "__errors__" := by
    have := hp2.1
    simpa using this
  have hc : strContains kv.1 tr = true := hp2.2
  have hfind2 : findLoop captured (fun ru => strContains ru tr) = some kv := hfind
  refine ⟨kv, hfind2, hne1, hc, ?_⟩
  intro url
  have hE : kv.2.isEmpty = false := by
    cases hkv2 : kv.2 with
    | nil => exact absurd hkv2 (hne kv hmem)
    | cons a l => rfl
  have htr2 : optStrTruthy (some tr) = true := by
    simp [optStrTruthy, htr]
  have hfind3 : findLoop captured (fun ru => strContains ru ((some tr).getD "")) = some kv :=
    hfind2
  simp only [selectTarget, htr2, if_true, hfind3, matchedFalsy, hE,
    Bool.false_eq_true, if_false]

/-- C4 witness: with `target_request = "LookupService"` the first URL
containing it is selected even though the page URL is itself a captured
key. -/
theorem target_selection_precedence_witness :
    selectTarget
      [("page", [Item.entry ⟨⟨"GET", "page", [], none⟩, none⟩]),
       ("http://a/LookupServiceX?id=1", [Item.entry ⟨⟨"GET", "http://a/LookupServiceX?id=1", [], none⟩, none⟩])]
      (some "LookupService") "page" =
      (some [Item.entry ⟨⟨"GET", "http://a/LookupServiceX?id=1", [], none⟩, none⟩],
       some "http://a/LookupServiceX?id=1") := by
  obtain ⟨kv, hfind, h1, h2, hall⟩ := target_selection_precedence
    [("page", [Item.entry ⟨⟨"GET", "page", [], none⟩, none⟩]),
     ("http://a/LookupServiceX?id=1", [Item.entry ⟨⟨"GET", "http://a/LookupServiceX?id=1", [], none⟩, none⟩])]
    "LookupService" (by decide)
    (by decide)
    ⟨("http://a/LookupServiceX?id=1", [Item.entry ⟨⟨"GET", "http://a/LookupServiceX?id=1", [], none⟩, none⟩]),
      by decide, by decide, by decide⟩
  have hkv : kv = ("http://a/LookupServiceX?id=1",
      [Item.entry ⟨⟨"GET", "http://a/LookupServiceX?id=1", [], none⟩, none⟩]) := by
    have : findLoop
        [("page", [Item.entry ⟨⟨"GET", "page", [], none⟩, none⟩]),
         ("http://a/LookupServiceX?id=1", [Item.entry ⟨⟨"GET", "http://a/LookupServiceX?id=1", [], none⟩, none⟩])]
        (fun ru => strContains ru "LookupService") =
        some ("http://a/LookupServiceX?id=1",
          [Item.entry ⟨⟨"GET", "http://a/LookupServiceX?id=1", [], none⟩, none⟩]) := by
      decide
    rw [this] at hfind
    exact (Option.some_inj.mp hfind).symm
  rw [hall "page", hkv]

/-- C2: the capture-store invariant is preserved by every successfully
processed event operation on a well-formed store.  A request event appends
exactly one fresh entry (empty response slot) under its URL and touches
nothing else.  A response event leaves every other bucket unchanged and, on
its own URL, either fills the response slot of the last entry — which is then
the most recent entry whose response is still absent — or, when the bucket is
empty or its last entry is already completed, appends one synthesized entry
whose slot it fills; an entry whose response slot is already filled is never
modified (it keeps its exact position and value). -/
theorem capture_store_invariant (st : Store) (rev : RequestEvent) (sev : ResponseEvent)
    (hr : rev.raises = none) (hs : sev.raises = none)
    (hsu : sev.url ≠ "__errors__") (hwf : WFStore st) :
    bucket (on_request st rev) rev.url =
      bucket st rev.url ++ [Item.entry ⟨reqInfoOf rev, none⟩] ∧
    (∀ u, u ≠ rev.url → bucket (on_request st rev) u = bucket st u) ∧
    (∀ u, u ≠ sev.url → bucket (on_response st sev) u = bucket st u) ∧
    ((∃ e rest, bucket st sev.url = rest ++ [Item.entry e] ∧ e.response = none ∧
        bucket (on_response st sev) sev.url =
          rest ++ [Item.entry { e with response := some (respInfoOf sev) }]) ∨
      ((bucket st sev.url = [] ∨
          ∃ e rest, bucket st sev.url = rest ++ [Item.entry e] ∧ e.response ≠ none) ∧
        bucket (on_response st sev) sev.url =
          bucket st sev.url ++ [Item.entry ⟨synthReqOf sev, some (respInfoOf sev)⟩])) ∧
    (∀ (i : Nat) (e : CaptureEntry),
      (bucket st sev.url)[i]? = some (Item.entry e) → e.response ≠ none →
      (bucket (on_response st sev) sev.url)[i]? = some (Item.entry e)) := by
  have hreq : on_request st rev = dictAppendAt st rev.url (.entry ⟨reqInfoOf rev, none⟩) := by
    simp [on_request, hr]
  refine ⟨by rw [hreq, bucket_dictAppendAt_self],
    fun u hu => by rw [hreq, bucket_dictAppendAt_ne _ _ _ _ hu], ?_⟩
  cases hg : dictGet st sev.url with
  | none =>
    have hb : bucket st sev.url = [] := by simp [bucket, hg]
    have hresp : on_response st sev =
        dictAppendAt st sev.url (.entry ⟨synthReqOf sev, some (respInfoOf sev)⟩) := by
      simp [on_response, hs, hg]
    refine ⟨fun u hu => by rw [hresp, bucket_dictAppendAt_ne _ _ _ _ hu],
      Or.inr ⟨Or.inl hb, by rw [hresp, bucket_dictAppendAt_self]⟩, ?_⟩
    intro i e hi
    rw [hb] at hi
    simp at hi
  | some items =>
    have hb : bucket st sev.url = items := by simp [bucket, hg]
    have hall : ∀ it ∈ items, it.isEntry = true :=
      fun it hit => hwf (sev.url, items) (dictGet_mem st sev.url items hg) hsu it hit
    cases hl : items.getLast? with
    | none =>
      have hitems : items = [] := by simpa using List.getLast?_eq_none_iff.mp hl
      have hresp : on_response st sev =
          dictAppendAt st sev.url (.entry ⟨synthReqOf sev, some (respInfoOf sev)⟩) := by
        simp [on_response, hs, hg, hl]
      refine ⟨fun u hu => by rw [hresp, bucket_dictAppendAt_ne _ _ _ _ hu],
        Or.inr ⟨Or.inl (hb.trans hitems), by rw [hresp, bucket_dictAppendAt_self]⟩, ?_⟩
      intro i e hi
      rw [hb, hitems] at hi
      simp at hi
    | some it =>
      have hitmem : it ∈ items := by
        obtain ⟨hne2, heq⟩ := List.mem_getLast?_eq_getLast (l := items) (x := it) hl
        rw [heq]
        exact List.getLast_mem hne2
      have hent : ∃ e0 : CaptureEntry, it = Item.entry e0 := by
        cases it with
        | entry e0 => exact ⟨e0, rfl⟩
        | error r =>
          have := hall _ hitmem
          simp [Item.isEntry] at this
      obtain ⟨e0, hit0⟩ := hent
      subst hit0
      have hne3 : items ≠ [] := by
        intro hnil
        rw [hnil] at hl
        simp at hl
      have hgl : items.getLast hne3 = Item.entry e0 := by
        have hx := List.getLast?_eq_getLast_of_ne_nil (l := items) hne3
        rw [hl] at hx
        exact (Option.some_inj.mp hx).symm
      have hitems : items = items.dropLast ++ [Item.entry e0] := by
        conv_lhs => rw [← List.dropLast_append_getLast hne3]
        rw [hgl]
      by_cases he : e0.response = none
      · have hresp : on_response st sev =
            dictSet st sev.url
              (items.dropLast ++ [Item.entry { e0 with response := some (respInfoOf sev) }]) := by
          simp [on_response, hs, hg, hl, he]
        refine ⟨fun u hu => by rw [hresp, bucket_dictSet_ne _ _ _ _ hu],
          Or.inl ⟨e0, items.dropLast, by rw [hb]; exact hitems, he,
            by rw [hresp, bucket_dictSet_self]⟩, ?_⟩
        intro i e hi hrne
        rw [hresp, bucket_dictSet_self]
        rw [hb] at hi
        rcases Nat.lt_trichotomy i items.dropLast.length with hlt | hieq | hgt
        · have h1 : (items.dropLast ++
              [Item.entry { e0 with response := some (respInfoOf sev) }])[i]? =
              items.dropLast[i]? := by
            rw [List.getElem?_append, if_pos hlt]
          have h2 : items[i]? = items.dropLast[i]? := by
            conv_lhs => rw [hitems]
            rw [List.getElem?_append, if_pos hlt]
          rw [h2] at hi
          rw [h1, hi]
        · subst hieq
          have hx : (items.dropLast ++ [Item.entry e0])[items.dropLast.length]? =
              some (Item.entry e0) := by
            rw [List.getElem?_append, if_neg (lt_irrefl _)]
            simp
          rw [← hitems] at hx
          rw [hx] at hi
          have : e0 = e := by
            have := Option.some_inj.mp hi
            injection this
          rw [← this] at hrne
          exact absurd he hrne
        · have hx : items[i]? = none := by
            apply List.getElem?_eq_none
            have hlen2 : items.length = items.dropLast.length + 1 := by
              conv_lhs => rw [hitems]
              simp
            omega
          rw [hx] at hi
          exact absurd hi (by simp)
      · have hresp : on_response st sev =
            dictAppendAt st sev.url (.entry ⟨synthReqOf sev, some (respInfoOf sev)⟩) := by
          simp [on_response, hs, hg, hl, he]
        refine ⟨fun u hu => by rw [hresp, bucket_dictAppendAt_ne _ _ _ _ hu],
          Or.inr ⟨Or.inr ⟨e0, items.dropLast, by rw [hb]; exact hitems, he⟩,
            by rw [hresp, bucket_dictAppendAt_self]⟩, ?_⟩
        intro i e hi hrne
        rw [hresp, bucket_dictAppendAt_self, hb]
        rw [hb] at hi
        have hlen : i < items.length := by
          by_contra hge
          rw [List.getElem?_eq_none (Nat.le_of_not_lt hge)] at hi
          exact absurd hi (by simp)
        rw [List.getElem?_append]
        simp only [hlen, if_pos]
        exact hi

/-- C2 witness: one request then its response on the empty store. -/
theorem capture_store_invariant_witness :
    bucket (on_request [] ⟨"GET", "u", [], none, none⟩) "u" =
      bucket ([] : Store) "u" ++
        [Item.entry ⟨reqInfoOf ⟨"GET", "u", [], none, none⟩, none⟩] :=
  (capture_store_invariant [] ⟨"GET", "u", [], none, none⟩
    ⟨"GET", "u", [], 200, [], none⟩ rfl rfl (by decide)
    (by intro kv hkv; simp at hkv)).1

end NetworkScraper
